import Mathlib

/-!
Verification development for the bea_apa hydration-reminder application.

The definitions below are a shallow embedding of the application logic in
`core/main_window.py`, `core/settings_manager.py`,
`dialogs/achievement_manager.py` and `widgets/todo_widget.py`.

Modelling conventions:
* calendar dates are modelled as natural-number day indices (days since an
  epoch); a full timestamp is a pair `(day, minuteOfDay)` and its date
  portion is the first component, so `d1 < d2` on day indices mirrors the
  Python comparison of `datetime.date` values;
* `datetime.fromisoformat` is applied in the source only to strings the
  program itself wrote, so date parsing always succeeds in the model;
* the mutable `MainWindow` attributes together with the settings dictionary
  are modelled as one record `AppState` (the source mirrors every attribute
  into the settings dictionary inside `save_settings`);
* fallible computations (the float division in `update_progress_ring`,
  which raises `ZeroDivisionError` on a zero denominator) return `Option`;
* Python `int` fields that can go negative are `Int`; counters that the
  program keeps non-negative are `Nat`.
-/

namespace BeaApa

/-- A timestamp: `(day index, minute of day)`.  The date portion used by
`datetime.date()` comparisons is the first component. -/
abbrev Timestamp := Nat × Nat

/-- Combined mutable state of `MainWindow` and the settings document:
`hydration_log_count`, `daily_hydration_goal`, the `history` mapping from
day index to archived count, `last_log_date`, and the bounded `log_times`
list. -/
structure AppState where
  log_count : Nat
  daily_goal : Nat
  history : Nat → Option Nat
  last_log_date : Timestamp
  log_times : List Timestamp

/-- Dictionary update `history[d] = v` on the history mapping. -/
def historyInsert (d : Nat) (v : Nat) (h : Nat → Option Nat) : Nat → Option Nat :=
  fun x => if x = d then some v else h x

/-- Python `log_times[-100:]` truncation used in `save_settings`: keep the
`n` most recent entries when the list exceeds `n`. -/
def truncLast (n : Nat) (l : List α) : List α :=
  if l.length > n then l.drop (l.length - n) else l

/-- Embedding of `MainWindow.save_settings` (core/main_window.py:777-803).
It mirrors the attributes into the settings dictionary (already identified
in `AppState`), sets `last_log_date` to now via `update_last_log_date`,
appends the current timestamp to `log_times` and keeps only the most
recent 100 entries. -/
def saveSettings (now : Timestamp) (s : AppState) : AppState :=
  { s with
    last_log_date := now
    log_times := truncLast 100 (s.log_times ++ [now]) }

/-- Embedding of `MainWindow.log_drink` (core/main_window.py:697-710):
increment `hydration_log_count` capped at `daily_hydration_goal`, then
persist through `save_settings`.  (The toast, achievement refresh and
signal emission do not touch this state.) -/
def logDrink (now : Timestamp) (s : AppState) : AppState :=
  saveSettings now { s with log_count := min (s.log_count + 1) s.daily_goal }

/-- Embedding of `MainWindow.check_daily_reset` (core/main_window.py:805-823):
when the stored date portion of `last_log_date` is strictly before today,
archive a positive `log_count` into `history[last_date]`, zero the counter,
refresh `last_log_date` and persist via `save_settings`; otherwise do
nothing. -/
def checkDailyReset (now : Timestamp) (s : AppState) : AppState :=
  let today := now.1
  let lastDate := s.last_log_date.1
  if lastDate < today then
    let s1 := if s.log_count > 0 then
        { s with history := historyInsert lastDate s.log_count s.history }
      else s
    saveSettings now { s1 with log_count := 0, last_log_date := now }
  else s

/-- Embedding of `MainWindow.perform_daily_reset` (core/main_window.py:838-840)
minus the timer re-arming: it just runs `check_daily_reset`. -/
def performDailyReset (now : Timestamp) (s : AppState) : AppState :=
  checkDailyReset now s

/-- The day-count function used by `update_stats` (core/main_window.py:396,403):
today reads the live `hydration_log_count`, any other day reads
`history.get(day.isoformat(), 0)`. -/
def dayCount (s : AppState) (today : Nat) (d : Nat) : Nat :=
  if d = today then s.log_count else (s.history d).getD 0

/-- The backward walk of the streak loop in `update_stats`
(core/main_window.py:400-408): starting at `day`, count consecutive days
with a positive count, stopping at the first zero day.  Day indices stop
at the epoch 0, which no scenario of the source reaches. -/
def streakFrom (c : Nat → Nat) : Nat → Nat
  | 0 => if c 0 > 0 then 1 else 0
  | d + 1 => if c (d + 1) > 0 then 1 + streakFrom c d else 0

/-- The streak statistic displayed by `MainWindow.update_stats`
(core/main_window.py:389-412). -/
def statsStreak (s : AppState) (today : Nat) : Nat :=
  streakFrom (dayCount s today) today

/-- Embedding of the ratio computed by `MainWindow.update_progress_ring`
(core/main_window.py:382-383): `min(log_count / daily_goal, 1.0)`.  The
Python division raises `ZeroDivisionError` when `daily_goal` is 0, which
the model renders as `none`. -/
def progressRingValue (log_count daily_goal : Nat) : Option ℚ :=
  if daily_goal = 0 then none
  else some (min ((log_count : ℚ) / (daily_goal : ℚ)) 1)

/-- Embedding of the `Achievement` class
(dialogs/achievement_manager.py:6-83).  Only the fields the update logic
reads or writes are kept; `unlock_date` stores a timestamp day index. -/
structure Achievement where
  id : String
  unlocked : Bool
  unlock_date : Option Nat
  progress : Int
  progress_max : Int
deriving DecidableEq, Repr

/-- Embedding of `Achievement.unlock`
(dialogs/achievement_manager.py:61-67): mark as unlocked with the current
timestamp, only when not yet unlocked.  The returned `Bool` is the Python
return value. -/
def Achievement.unlock (now : Nat) (a : Achievement) : Achievement × Bool :=
  if a.unlocked then (a, false)
  else ({ a with unlocked := true, unlock_date := some now }, true)

/-- Embedding of `Achievement.update_progress`
(dialogs/achievement_manager.py:69-83): ignore the call once unlocked,
otherwise set `progress := min(new_progress, progress_max)` and unlock when
`progress >= progress_max` with `progress_max > 0`.  The `Bool` mirrors the
Python return value. -/
def Achievement.updateProgress (now : Nat) (new_progress : Int) (a : Achievement) :
    Achievement × Bool :=
  if a.unlocked then (a, false)
  else
    let old := a.progress
    let a1 := { a with progress := min new_progress a.progress_max }
    if a1.progress ≥ a1.progress_max ∧ a1.progress_max > 0 then
      ((Achievement.unlock now a1).1, true)
    else
      (a1, decide (old ≠ a1.progress))

/-- Update the first achievement with the given id in the manager's list;
this mirrors `get_achievement` (dialogs/achievement_manager.py:314-319)
returning the first match followed by an in-place mutation. -/
def updateFirst (aid : String) (f : Achievement → Achievement) :
    List Achievement → List Achievement
  | [] => []
  | a :: rest =>
    if a.id = aid then f a :: rest else a :: updateFirst aid f rest

/-- Embedding of `AchievementManager.unlock_achievement`
(dialogs/achievement_manager.py:321-329): unlock the achievement with the
given id when it exists and is not yet unlocked. -/
def unlockAchievement (now : Nat) (aid : String) (l : List Achievement) :
    List Achievement :=
  updateFirst aid
    (fun a => if a.unlocked = false then (Achievement.unlock now a).1 else a) l

/-- Embedding of `AchievementManager.update_achievement_progress`
(dialogs/achievement_manager.py:331-340): forward to
`Achievement.update_progress` on the achievement with the given id. -/
def updateAchievementProgress (now : Nat) (aid : String) (p : Int)
    (l : List Achievement) : List Achievement :=
  updateFirst aid (fun a => (Achievement.updateProgress now p a).1) l

/-- Embedding of `AchievementManager.check_count_achievements`
(dialogs/achievement_manager.py:422-448): a guarded unlock of
`first_drink` when the total is positive, then `update_progress` with the
total count on `total_drinks_100` and `total_drinks_500`. -/
def checkCountAchievements (now : Nat) (total : Int) (l : List Achievement) :
    List Achievement :=
  let l1 := if total > 0 then
      updateFirst "first_drink"
        (fun a => if a.unlocked = false then (Achievement.unlock now a).1 else a) l
    else l
  let l2 := updateFirst "total_drinks_100"
    (fun a => (Achievement.updateProgress now total a).1) l1
  updateFirst "total_drinks_500"
    (fun a => (Achievement.updateProgress now total a).1) l2

/-- The backward consecutive-day count of the streak loop in
`check_streak_achievements` (dialogs/achievement_manager.py:367-373),
running over the date list sorted in descending order: starting from the
latest date, extend the streak while each previous date is exactly one day
earlier. -/
def consecFromLatest : List Nat → Nat
  | [] => 0
  | [_] => 1
  | a :: b :: t => if a = b + 1 then 1 + consecFromLatest (b :: t) else 1

/-- The `current_streak` value of `check_streak_achievements`
(dialogs/achievement_manager.py:357-373): sort the history dates, report 0
when the latest date is before yesterday, otherwise count consecutive days
backward from the latest date. -/
def currentStreak (today : Nat) (history : List (Nat × Nat)) : Nat :=
  let sortedDates := List.insertionSort (· ≤ ·) (history.map Prod.fst)
  match sortedDates.reverse with
  | [] => 0
  | last :: rest =>
    if last < today - 1 then 0 else consecFromLatest (last :: rest)

/-- The perfect-week loop of `check_streak_achievements`
(dialogs/achievement_manager.py:398-415): iterate the history entries in
their stored order, incrementing a counter on entries meeting the goal and
resetting it to 0 otherwise; report an unlock as soon as the counter
reaches 7. -/
def perfectScan (goal : Nat) : List (Nat × Nat) → Nat → Bool
  | [], _ => false
  | (_, c) :: rest, acc =>
    let acc1 := if goal ≤ c then acc + 1 else 0
    if 7 ≤ acc1 then true else perfectScan goal rest acc1

/-- Embedding of `AchievementManager.check_streak_achievements`
(dialogs/achievement_manager.py:350-420).  `history` is the settings
dictionary as an association list in its stored iteration order;
`daily_goal` is the resolved goal (the source substitutes 8 when the
setting is absent). -/
def checkStreakAchievements (now today daily_goal : Nat)
    (history : List (Nat × Nat)) (l : List Achievement) : List Achievement :=
  if history = [] then l
  else
    let streak := currentStreak today history
    let guardedUnlock : Achievement → Achievement :=
      fun a => if a.unlocked = false then (Achievement.unlock now a).1 else a
    let l1 := if 3 ≤ streak then updateFirst "three_day_streak" guardedUnlock l else l
    let l2 := if 7 ≤ streak then updateFirst "week_streak" guardedUnlock l1 else l1
    let l3 := if 30 ≤ streak then updateFirst "month_streak" guardedUnlock l2 else l2
    updateFirst "perfect_week"
      (fun a =>
        if a.unlocked = false ∧ perfectScan daily_goal history 0 = true then
          (Achievement.unlock now a).1
        else a) l3

/-- Dictionary lookup on the history association list (day index key). -/
def lookupDay (d : Nat) (history : List (Nat × Nat)) : Option Nat :=
  (history.find? (fun p => p.1 = d)).map Prod.snd

/-- Modelled from the spec sentence of the claim (for comparison with
`perfectScan`): the history map contains 7 consecutive calendar days each
with a count meeting the daily goal.  Any such run starts at one of the
stored days. -/
def specSevenConsecutiveGoalDays (goal : Nat) (history : List (Nat × Nat)) : Bool :=
  history.any fun p =>
    (List.range 7).all fun j =>
      match lookupDay (p.1 + j) history with
      | some c => decide (goal ≤ c)
      | none => false

/-- Python strings are modelled as lists of characters so that every string
operation used by `quick_add_task` reduces structurally. -/
abbrev PyStr := List Char

/-- Python `str.strip()`: remove leading and trailing whitespace. -/
def pyStrip (s : PyStr) : PyStr :=
  ((s.dropWhile Char.isWhitespace).reverse.dropWhile Char.isWhitespace).reverse

/-- Python `str.endswith(suffix)`. -/
def pyEndsWith (s suf : PyStr) : Bool :=
  List.isSuffixOf suf s

/-- Python slicing `s[:-n]`: drop the last `n` characters. -/
def pyDropRight (s : PyStr) (n : Nat) : PyStr :=
  s.take (s.length - n)

/-- Python `str.lower()` (ASCII inputs only in the parser). -/
def pyLower (s : PyStr) : PyStr :=
  s.map Char.toLower

/-- Fuel-driven worker for `str.replace`: at each position either copy the
matched pattern occurrence as the replacement and continue after it, or
keep one character.  The fuel `s.length` always suffices because a
non-empty pattern consumes at least one character per step. -/
def pyReplaceAux (pat rep : PyStr) : Nat → PyStr → PyStr
  | 0, s => s
  | _ + 1, [] => []
  | fuel + 1, c :: t =>
    if pat ≠ [] ∧ List.isPrefixOf pat (c :: t) then
      rep ++ pyReplaceAux pat rep fuel ((c :: t).drop pat.length)
    else
      c :: pyReplaceAux pat rep fuel t

/-- Python `str.replace(pat, rep)` (all occurrences); the parser never
calls it with an empty pattern. -/
def pyReplace (s pat rep : PyStr) : PyStr :=
  pyReplaceAux pat rep s.length s

/-- Python `pat in s` substring containment. -/
def pyContainsSub (pat : PyStr) : PyStr → Bool
  | [] => pat.isEmpty
  | c :: t => List.isPrefixOf pat (c :: t) || pyContainsSub pat t

/-- Worker for Python `str.split()` with no separator: split on whitespace
runs, discarding empty words; `acc` holds the current word reversed. -/
def pySplitAux : List Char → List Char → List PyStr
  | [], acc => if acc.isEmpty then [] else [acc.reverse]
  | c :: t, acc =>
    if c.isWhitespace then
      if acc.isEmpty then pySplitAux t [] else acc.reverse :: pySplitAux t []
    else
      pySplitAux t (c :: acc)

/-- Python `str.split()` (whitespace, no empty words). -/
def pySplitWs (s : PyStr) : List PyStr :=
  pySplitAux s []

/-- The fields of `TodoItem` (widgets/todo_widget.py:27-50) that
`quick_add_task` sets: text, priority, tags, category and the optional
deadline `(day index, minute of day)` standing for the ISO datetime
string. -/
structure TodoItem where
  text : PyStr
  priority : String
  tags : List PyStr
  category : String
  deadline : Option (Nat × Nat)
deriving DecidableEq, Repr

/-- Embedding of `TodoListWidget.quick_add_task`
(widgets/todo_widget.py:1481-1543) as a function of the raw input line.
`today` is the current day index and `selectedCategory` the active
category filter.  Empty input adds nothing (`none`).  The steps mirror the
source: strip the input; map a trailing `!!!`/`!!`/`!` to priority
High/Medium/Low, removing it from the stored text; resolve the first of
`@today`/`@tomorrow`/`@nextweek` appearing in the lowered raw input to a
deadline at 18:00 and strip the token; extract every word of the raw input
starting with `#` as a tag, stripping it from the stored text. -/
def quickAddTask (today : Nat) (selectedCategory : String) (input : PyStr) :
    Option TodoItem :=
  let text := pyStrip input
  if text = [] then none
  else
    let category := if selectedCategory ≠ "All" then selectedCategory else "Personal"
    let (t1, prio) :=
      if pyEndsWith text ("!!!".data) then (pyStrip (pyDropRight text 3), "High")
      else if pyEndsWith text ("!!".data) then (pyStrip (pyDropRight text 2), "Medium")
      else if pyEndsWith text ("!".data) then (pyStrip (pyDropRight text 1), "Low")
      else (text, "Medium")
    let lowered := pyLower text
    let (t2, ddl) :=
      if pyContainsSub ("@today".data) lowered then
        (pyStrip (pyReplace t1 ("@today".data) []), some (today, 18 * 60))
      else if pyContainsSub ("@tomorrow".data) lowered then
        (pyStrip (pyReplace t1 ("@tomorrow".data) []), some (today + 1, 18 * 60))
      else if pyContainsSub ("@nextweek".data) lowered then
        (pyStrip (pyReplace t1 ("@nextweek".data) []), some (today + 7, 18 * 60))
      else (t1, none)
    let step : PyStr × List PyStr → PyStr → PyStr × List PyStr :=
      fun acc w =>
        if List.isPrefixOf ("#".data) w then
          let tag := w.drop 1
          if tag ≠ [] then (pyStrip (pyReplace acc.1 w []), acc.2 ++ [tag])
          else acc
        else acc
    let (t3, tags) := (pySplitWs text).foldl step (t2, [])
    some { text := t3, priority := prio, tags := tags, category := category,
           deadline := ddl }

theorem logDrink_daily_goal (now : Timestamp) (s : AppState) :
    (logDrink now s).daily_goal = s.daily_goal := rfl

theorem logDrink_iterate (now : Timestamp) (s : AppState) :
    ∀ n : Nat, ((logDrink now)^[n + 1] s).log_count = min (s.log_count + (n + 1)) s.daily_goal
  | 0 => by simp [logDrink, saveSettings]
  | n + 1 => by
    rw [Function.iterate_succ_apply']
    have ih := logDrink_iterate now s n
    have hg : ((logDrink now)^[n + 1] s).daily_goal = s.daily_goal := by
      clear ih
      induction n with
      | zero => rfl
      | succ m ihm => rw [Function.iterate_succ_apply']; rw [logDrink_daily_goal]; exact ihm
    show min (((logDrink now)^[n + 1] s).log_count + 1) (((logDrink now)^[n + 1] s).daily_goal)
        = min (s.log_count + (n + 1 + 1)) s.daily_goal
    rw [ih, hg]
    omega

/-- C1: from every starting `log_count` and `daily_goal`, `daily_goal + k`
calls of `log_drink` (k > 0) leave `log_count` equal to `daily_goal`: each
call increments the counter by one and caps it at the goal, so the counter
never exceeds the goal. -/
theorem log_drink_caps_at_goal (now : Timestamp) (s : AppState) (k : Nat)
    (hk : 0 < k) :
    ((logDrink now)^[s.daily_goal + k] s).log_count = s.daily_goal := by
  obtain ⟨k', rfl⟩ : ∃ k', k = k' + 1 := ⟨k - 1, by omega⟩
  have h := logDrink_iterate now s (s.daily_goal + k')
  have : s.daily_goal + (k' + 1) = s.daily_goal + k' + 1 := by omega
  rw [this, h]
  omega

theorem log_drink_caps_at_goal_witness :
    0 < 2 ∧
      ((logDrink (0, 0))^[5 + 2]
          (⟨3, 5, fun _ => none, (0, 0), []⟩ : AppState)).log_count = 5 :=
  ⟨by decide, log_drink_caps_at_goal (0, 0) ⟨3, 5, fun _ => none, (0, 0), []⟩ 2 (by decide)⟩

/-- C2: the source of `update_progress_ring` divides `log_count` by
`daily_goal` with no guard, so with `daily_goal = 0` the computation
raises `ZeroDivisionError` (modelled as `none`) for every `log_count`,
instead of clamping the ratio to a defined value as the specification
requires. -/
theorem progress_ring_zero_goal_raises (log_count : Nat) :
    progressRingValue log_count 0 = none := rfl

theorem checkDailyReset_last_log_date (now : Timestamp) (s : AppState)
    (h : s.last_log_date.1 < now.1) :
    (checkDailyReset now s).last_log_date = now := by
  simp only [checkDailyReset, saveSettings]
  rw [if_pos h]

theorem checkDailyReset_of_current (now : Timestamp) (t : AppState)
    (h : t.last_log_date.1 = now.1) : checkDailyReset now t = t := by
  simp only [checkDailyReset, h]
  rw [if_neg (lt_irrefl now.1)]

/-- C7: day rollover is idempotent.  If `check_daily_reset` runs with a
stale `last_log_date` (date portion strictly before today) and runs again
immediately, the second run returns the state unchanged: the archive into
`history` and the reset of `log_count` to 0 happen exactly once. -/
theorem check_daily_reset_idempotent (now : Timestamp) (s : AppState)
    (h : s.last_log_date.1 < now.1) :
    checkDailyReset now (checkDailyReset now s) = checkDailyReset now s :=
  checkDailyReset_of_current now _
    (by rw [checkDailyReset_last_log_date now s h])

theorem check_daily_reset_idempotent_witness :
    checkDailyReset (3, 7) (checkDailyReset (3, 7)
        (⟨4, 8, fun _ => none, (1, 2), []⟩ : AppState)) =
      checkDailyReset (3, 7) (⟨4, 8, fun _ => none, (1, 2), []⟩ : AppState) :=
  check_daily_reset_idempotent (3, 7) ⟨4, 8, fun _ => none, (1, 2), []⟩ (by decide)

/-- C9: the invariant that `history` holds no entry for the current date is
preserved: `log_drink` never touches `history`, and `check_daily_reset`
writes only the key `last_log_date < today` while resetting the counter,
so a state with no entry for today keeps no entry for today. -/
theorem history_today_invariant (now : Timestamp) (s : AppState) :
    (logDrink now s).history = s.history ∧
      (s.history now.1 = none → (checkDailyReset now s).history now.1 = none) := by
  constructor
  · rfl
  · intro h
    by_cases h1 : s.last_log_date.1 < now.1
    · by_cases h2 : s.log_count > 0
      · simp only [checkDailyReset, saveSettings, historyInsert]
        rw [if_pos h1, if_pos h2]
        have hne : now.1 ≠ s.last_log_date.1 := by omega
        simpa [historyInsert, hne] using h
      · simp only [checkDailyReset, saveSettings]
        rw [if_pos h1, if_neg h2]
        exact h
    · simp only [checkDailyReset]
      rw [if_neg h1]
      exact h

theorem history_today_invariant_witness :
    (logDrink (6, 0) (⟨2, 8, fun _ => none, (5, 0), []⟩ : AppState)).history =
        (⟨2, 8, fun _ => none, (5, 0), []⟩ : AppState).history ∧
      (checkDailyReset (6, 0)
          (⟨2, 8, fun _ => none, (5, 0), []⟩ : AppState)).history 6 = none :=
  ⟨(history_today_invariant (6, 0) ⟨2, 8, fun _ => none, (5, 0), []⟩).1,
   (history_today_invariant (6, 0) ⟨2, 8, fun _ => none, (5, 0), []⟩).2 rfl⟩

theorem truncLast_append_length (l : List α) (x : α) :
    (truncLast 100 (l ++ [x])).length = min (l.length + 1) 100 := by
  simp only [truncLast, List.length_append, List.length_cons, List.length_nil]
  split
  · simp only [List.length_drop, List.length_append, List.length_cons, List.length_nil]
    omega
  · simp only [List.length_append, List.length_cons, List.length_nil]
    omega

theorem truncLast_append_form (l : List α) (x : α) :
    ∃ rest : List α, truncLast 100 (l ++ [x]) = rest ++ [x] := by
  simp only [truncLast]
  split
  · refine ⟨l.drop ((l ++ [x]).length - 100), ?_⟩
    rw [List.drop_append_of_le_length]
    simp only [List.length_append, List.length_cons, List.length_nil]
    omega
  · exact ⟨l, rfl⟩

/-- C10: every run of `save_settings` appends exactly one current
timestamp to `log_times` and keeps only the 100 most recent entries, so
the result always ends in the new timestamp and has length
`min (old + 1) 100 ≤ 100`; the same holds for the `save_settings` call
made by `check_daily_reset` during a stale-date rollover, so `log_times`
entries are not one-to-one with logged drinks. -/
theorem save_settings_log_times (now : Timestamp) (s : AppState) :
    (saveSettings now s).log_times.length = min (s.log_times.length + 1) 100 ∧
      (∃ rest, (saveSettings now s).log_times = rest ++ [now]) ∧
      (saveSettings now s).log_times.length ≤ 100 ∧
      (s.last_log_date.1 < now.1 →
        (checkDailyReset now s).log_times.length = min (s.log_times.length + 1) 100 ∧
          ∃ rest, (checkDailyReset now s).log_times = rest ++ [now]) := by
  refine ⟨truncLast_append_length _ _, truncLast_append_form _ _, ?_, ?_⟩
  · rw [show (saveSettings now s).log_times = truncLast 100 (s.log_times ++ [now]) from rfl]
    rw [truncLast_append_length]
    omega
  · intro h
    have hlog : (checkDailyReset now s).log_times = truncLast 100 (s.log_times ++ [now]) := by
      simp only [checkDailyReset, saveSettings]
      rw [if_pos h]
      by_cases h2 : s.log_count > 0
      · rw [if_pos h2]
      · rw [if_neg h2]
    rw [hlog]
    exact ⟨truncLast_append_length _ _, truncLast_append_form _ _⟩

theorem save_settings_log_times_witness :
    (saveSettings (9, 30) (⟨2, 8, fun _ => none, (5, 0), [(5, 1)]⟩ : AppState)).log_times.length =
        min ((1 : Nat) + 1) 100 ∧
      (checkDailyReset (9, 30)
          (⟨2, 8, fun _ => none, (5, 0), [(5, 1)]⟩ : AppState)).log_times.length =
        min ((1 : Nat) + 1) 100 :=
  ⟨(save_settings_log_times (9, 30) ⟨2, 8, fun _ => none, (5, 0), [(5, 1)]⟩).1,
   ((save_settings_log_times (9, 30) ⟨2, 8, fun _ => none, (5, 0), [(5, 1)]⟩).2.2.2
      (by decide)).1⟩

theorem unlock_of_unlocked (now : Nat) (a : Achievement) (h : a.unlocked = true) :
    (Achievement.unlock now a).1 = a := by
  simp [Achievement.unlock, h]

theorem updateProgress_of_unlocked (now : Nat) (p : Int) (a : Achievement)
    (h : a.unlocked = true) : (Achievement.updateProgress now p a).1 = a := by
  simp [Achievement.updateProgress, h]

theorem updateFirst_get?_of_fixed (aid : String) {f : Achievement → Achievement}
    (hf : ∀ a, a.unlocked = true → f a = a) :
    ∀ (l : List Achievement) (i : Nat) (a : Achievement),
      l.get? i = some a → a.unlocked = true → (updateFirst aid f l).get? i = some a
  | [], i, a, hget, _ => by simp at hget
  | b :: rest, 0, a, hget, hunl => by
    simp only [List.get?] at hget
    have hbu : b.unlocked = true := by
      have hba : b = a := by injection hget
      rw [hba]; exact hunl
    by_cases hb : b.id = aid
    · simp only [updateFirst, if_pos hb, List.get?]
      rw [hf b hbu]
      exact hget
    · simp only [updateFirst, if_neg hb, List.get?]
      exact hget
  | b :: rest, i + 1, a, hget, hunl => by
    simp only [List.get?] at hget
    by_cases hb : b.id = aid
    · simp only [updateFirst, if_pos hb, List.get?]
      exact hget
    · simp only [updateFirst, if_neg hb, List.get?]
      exact updateFirst_get?_of_fixed aid hf rest i a hget hunl

theorem ite_updateFirst_get?_of_fixed (aid : String) {f : Achievement → Achievement}
    (hf : ∀ a, a.unlocked = true → f a = a) (c : Prop) [Decidable c]
    {l : List Achievement} {i : Nat} {a : Achievement}
    (hget : l.get? i = some a) (hunl : a.unlocked = true) :
    (if c then updateFirst aid f l else l).get? i = some a := by
  split
  · exact updateFirst_get?_of_fixed aid hf l i a hget hunl
  · exact hget

theorem guarded_unlock_fixed (now : Nat) (a : Achievement) (h : a.unlocked = true) :
    (if a.unlocked = false then (Achievement.unlock now a).1 else a) = a := by
  simp [h]

/-- C3: achievement unlocking is monotonic.  An achievement whose
`unlocked` flag is already true is returned unchanged by `unlock` and
`update_progress`, and every re-evaluation pass of the manager
(`unlock_achievement`, `update_achievement_progress`,
`check_count_achievements`, `check_streak_achievements`) leaves such an
achievement exactly as it was, so `unlocked` never reverts to false and
`unlock_date`, once set, never changes. -/
theorem achievement_unlock_monotonic (now today daily_goal : Nat) (total p : Int)
    (aid : String) (history : List (Nat × Nat)) (l : List Achievement) (i : Nat)
    (a : Achievement) (hget : l.get? i = some a) (hunl : a.unlocked = true) :
    (Achievement.unlock now a).1 = a ∧
      (Achievement.updateProgress now p a).1 = a ∧
      (unlockAchievement now aid l).get? i = some a ∧
      (updateAchievementProgress now aid p l).get? i = some a ∧
      (checkCountAchievements now total l).get? i = some a ∧
      (checkStreakAchievements now today daily_goal history l).get? i = some a := by
  have hguard : ∀ b : Achievement, b.unlocked = true →
      (if b.unlocked = false then (Achievement.unlock now b).1 else b) = b :=
    fun b hb => guarded_unlock_fixed now b hb
  have hup : ∀ b : Achievement, b.unlocked = true →
      (Achievement.updateProgress now total b).1 = b :=
    fun b hb => updateProgress_of_unlocked now total b hb
  refine ⟨unlock_of_unlocked now a hunl, updateProgress_of_unlocked now p a hunl,
    updateFirst_get?_of_fixed aid hguard l i a hget hunl,
    updateFirst_get?_of_fixed aid
      (fun b hb => updateProgress_of_unlocked now p b hb) l i a hget hunl, ?_, ?_⟩
  · show (checkCountAchievements now total l).get? i = some a
    unfold checkCountAchievements
    have h1 : (if total > 0 then
        updateFirst "first_drink"
          (fun b => if b.unlocked = false then (Achievement.unlock now b).1 else b) l
      else l).get? i = some a := by
      split
      · exact updateFirst_get?_of_fixed "first_drink" hguard l i a hget hunl
      · exact hget
    have h2 := updateFirst_get?_of_fixed "total_drinks_100" hup _ i a h1 hunl
    exact updateFirst_get?_of_fixed "total_drinks_500" hup _ i a h2 hunl
  · show (checkStreakAchievements now today daily_goal history l).get? i = some a
    by_cases hh : history = []
    · simp only [checkStreakAchievements, if_pos hh]
      exact hget
    · simp only [checkStreakAchievements, if_neg hh]
      have h1 := ite_updateFirst_get?_of_fixed "three_day_streak" hguard
        (3 ≤ currentStreak today history) hget hunl
      have h2 := ite_updateFirst_get?_of_fixed "week_streak" hguard
        (7 ≤ currentStreak today history) h1 hunl
      have h3 := ite_updateFirst_get?_of_fixed "month_streak" hguard
        (30 ≤ currentStreak today history) h2 hunl
      refine updateFirst_get?_of_fixed "perfect_week" ?_ _ i a h3 hunl
      intro b hb
      simp [hb]

theorem achievement_unlock_monotonic_witness :
    (Achievement.unlock 5 ⟨"first_drink", true, some 1, 0, 0⟩).1 =
        ⟨"first_drink", true, some 1, 0, 0⟩ ∧
      (checkCountAchievements 5 200
          [⟨"first_drink", true, some 1, 0, 0⟩]).get? 0 =
        some ⟨"first_drink", true, some 1, 0, 0⟩ ∧
      (checkStreakAchievements 5 9 8 [(1, 8), (2, 8)]
          [⟨"first_drink", true, some 1, 0, 0⟩]).get? 0 =
        some ⟨"first_drink", true, some 1, 0, 0⟩ := by
  have h := achievement_unlock_monotonic 5 9 8 200 200 "first_drink" [(1, 8), (2, 8)]
    [⟨"first_drink", true, some 1, 0, 0⟩] 0 ⟨"first_drink", true, some 1, 0, 0⟩ rfl rfl
  exact ⟨h.1, h.2.2.2.2.1, h.2.2.2.2.2⟩

/-- C5, counterexample: `update_progress` on a locked achievement with
current progress 5 and `progress_max` 10 moves progress down to 3 when
called with 3, and down to -1 when called with -1, so progress is neither
monotone nor clamped to be non-negative as the claim states. -/
theorem update_progress_clamp_counterexample :
    (Achievement.updateProgress 0 3
        ⟨"total_drinks_100", false, none, 5, 10⟩).1.progress = 3 ∧
      ((3 : Int) < 5) ∧
      (Achievement.updateProgress 0 (-1)
          ⟨"total_drinks_100", false, none, 5, 10⟩).1.progress = -1 ∧
      ((-1 : Int) < 0) := by
  refine ⟨?_, by decide, ?_, by decide⟩ <;> rfl

/-- C5, amended: for a not-yet-unlocked achievement, `update_progress`
sets `progress` to `min(new_progress, progress_max)` — capped above by
`progress_max` but free to move backward or below zero — and a call on an
already-unlocked achievement leaves it unchanged. -/
theorem update_progress_amended (now : Nat) (p : Int) (a : Achievement) :
    (a.unlocked = false →
        (Achievement.updateProgress now p a).1.progress = min p a.progress_max ∧
          (Achievement.updateProgress now p a).1.progress ≤ a.progress_max) ∧
      (a.unlocked = true → (Achievement.updateProgress now p a).1 = a) := by
  have hprog : a.unlocked = false →
      (Achievement.updateProgress now p a).1.progress = min p a.progress_max := by
    intro h
    simp only [Achievement.updateProgress, h, Bool.false_eq_true, if_false]
    split
    · simp [Achievement.unlock, h]
    · rfl
  constructor
  · intro h
    refine ⟨hprog h, ?_⟩
    rw [hprog h]
    exact min_le_right _ _
  · intro h
    exact updateProgress_of_unlocked now p a h

theorem update_progress_amended_witness :
    (Achievement.updateProgress 0 3
        ⟨"total_drinks_100", false, none, 5, 10⟩).1.progress = min 3 10 ∧
      (Achievement.updateProgress 0 7
          ⟨"daily_goal", true, some 2, 0, 0⟩).1 = ⟨"daily_goal", true, some 2, 0, 0⟩ :=
  ⟨((update_progress_amended 0 3 ⟨"total_drinks_100", false, none, 5, 10⟩).1 rfl).1,
   (update_progress_amended 0 7 ⟨"daily_goal", true, some 2, 0, 0⟩).2 rfl⟩

theorem perfectScan_of_good_block (goal : Nat) (post : List (Nat × Nat)) :
    ∀ (mid : List (Nat × Nat)) (acc : Nat), 7 ≤ acc + mid.length →
      1 ≤ mid.length → (∀ p ∈ mid, goal ≤ p.2) →
      perfectScan goal (mid ++ post) acc = true := by
  intro mid
  induction mid with
  | nil => intro acc _ h1 _; simp at h1
  | cons hd tl ih =>
    intro acc hlen _ hgood
    obtain ⟨d, c⟩ := hd
    have hc : goal ≤ c := hgood (d, c) (List.mem_cons_self _ _)
    simp only [List.cons_append, perfectScan, if_pos hc]
    by_cases h7 : 7 ≤ acc + 1
    · rw [if_pos h7]
    · rw [if_neg h7]
      have htl : 1 ≤ tl.length := by
        rcases tl with _ | _
        · simp at hlen; omega
        · simp
      refine ih (acc + 1) ?_ htl fun p hp => hgood p (List.mem_cons_of_mem _ hp)
      simp at hlen ⊢
      omega

theorem perfectScan_append_pre (goal : Nat) (l : List (Nat × Nat))
    (h : ∀ acc, perfectScan goal l acc = true) :
    ∀ (pre : List (Nat × Nat)) (acc : Nat), perfectScan goal (pre ++ l) acc = true := by
  intro pre
  induction pre with
  | nil => exact h
  | cons hd tl ih =>
    intro acc
    obtain ⟨d, c⟩ := hd
    simp only [List.cons_append, perfectScan]
    by_cases hc : goal ≤ c
    · simp only [if_pos hc]
      split
      · rfl
      · exact ih _
    · simp only [if_neg hc]
      rw [if_neg (by omega : ¬ 7 ≤ 0)]
      exact ih _

theorem perfectScan_decomp (goal : Nat) :
    ∀ (l : List (Nat × Nat)) (acc : Nat), acc < 7 → perfectScan goal l acc = true →
      (∃ mid post, l = mid ++ post ∧ (∀ p ∈ mid, goal ≤ p.2) ∧ acc + mid.length = 7) ∨
      (∃ pre mid post, l = pre ++ mid ++ post ∧ mid.length = 7 ∧
        ∀ p ∈ mid, goal ≤ p.2) := by
  intro l
  induction l with
  | nil => intro acc _ hscan; simp [perfectScan] at hscan
  | cons hd tl ih =>
    intro acc hacc hscan
    obtain ⟨d, c⟩ := hd
    by_cases hc : goal ≤ c
    · simp only [perfectScan, if_pos hc] at hscan
      by_cases h7 : 7 ≤ acc + 1
      · left
        refine ⟨[(d, c)], tl, rfl, ?_, ?_⟩
        · intro p hp
          simp at hp
          rw [hp]
          exact hc
        · simp; omega
      · rw [if_neg h7] at hscan
        rcases ih (acc + 1) (by omega) hscan with
          ⟨mid, post, heq, hgood, hlen⟩ | ⟨pre, mid, post, heq, hlen, hgood⟩
        · left
          refine ⟨(d, c) :: mid, post, by simp [heq], ?_, by simp; omega⟩
          intro p hp
          rcases List.mem_cons.mp hp with rfl | hp2
          · exact hc
          · exact hgood p hp2
        · right
          exact ⟨(d, c) :: pre, mid, post, by simp [heq], hlen, hgood⟩
    · simp only [perfectScan, if_neg hc] at hscan
      rw [if_neg (by omega : ¬ 7 ≤ 0)] at hscan
      rcases ih 0 (by omega) hscan with
        ⟨mid, post, heq, hgood, hlen⟩ | ⟨pre, mid, post, heq, hlen, hgood⟩
      · right
        exact ⟨[(d, c)], mid, post, by simp [heq], by omega, hgood⟩
      · right
        exact ⟨(d, c) :: pre, mid, post, by simp [heq], hlen, hgood⟩

/-- C6, counterexample: a history of seven alternating days (day indices
0, 2, 4, ..., 12, no two of them consecutive), each with count 8 and goal
8, makes the perfect-week loop report an unlock — the stored iteration
order is scanned without any check that the dates are consecutive calendar
days — although the map contains no 7 consecutive calendar days meeting
the goal; the full `check_streak_achievements` pass indeed unlocks the
`perfect_week` achievement on this history. -/
theorem perfect_week_consecutive_counterexample :
    perfectScan 8 [(0, 8), (2, 8), (4, 8), (6, 8), (8, 8), (10, 8), (12, 8)] 0 = true ∧
      specSevenConsecutiveGoalDays 8
        [(0, 8), (2, 8), (4, 8), (6, 8), (8, 8), (10, 8), (12, 8)] = false ∧
      ((checkStreakAchievements 99 20 8
            [(0, 8), (2, 8), (4, 8), (6, 8), (8, 8), (10, 8), (12, 8)]
            [⟨"perfect_week", false, none, 0, 7⟩]).get? 0).map
          Achievement.unlocked = some true := by
  refine ⟨by decide, by decide, by decide⟩

/-- C6, amended: the perfect-week loop unlocks exactly when, scanning the
history entries in their stored iteration order, some run of 7 successive
entries each has a count meeting `daily_goal` (the counter resets to 0 on
any below-goal entry); neither chronological order nor calendar-day
consecutiveness is checked.  In particular, any history of at least 7
entries all meeting the goal — such as 2024-01-01 through 2024-01-07 each
with count 8 and goal 8, in any insertion order — unlocks it. -/
theorem perfect_week_scan_amended (goal : Nat) (l : List (Nat × Nat)) :
    (perfectScan goal l 0 = true ↔
        ∃ pre mid post, l = pre ++ mid ++ post ∧ mid.length = 7 ∧
          ∀ p ∈ mid, goal ≤ p.2) ∧
      (7 ≤ l.length → (∀ p ∈ l, goal ≤ p.2) → perfectScan goal l 0 = true) := by
  have hback : ∀ pre mid post : List (Nat × Nat), mid.length = 7 →
      (∀ p ∈ mid, goal ≤ p.2) → perfectScan goal (pre ++ mid ++ post) 0 = true := by
    intro pre mid post hlen hgood
    rw [List.append_assoc]
    refine perfectScan_append_pre goal (mid ++ post) ?_ pre 0
    intro acc
    exact perfectScan_of_good_block goal post mid acc (by omega) (by omega) hgood
  constructor
  · constructor
    · intro hscan
      rcases perfectScan_decomp goal l 0 (by omega) hscan with
        ⟨mid, post, heq, hgood, hlen⟩ | ⟨pre, mid, post, heq, hlen, hgood⟩
      · exact ⟨[], mid, post, by rw [heq]; rfl, by omega, hgood⟩
      · exact ⟨pre, mid, post, heq, hlen, hgood⟩
    · rintro ⟨pre, mid, post, rfl, hlen, hgood⟩
      exact hback pre mid post hlen hgood
  · intro hlen hgood
    have heq : l = [] ++ l.take 7 ++ l.drop 7 := by
      rw [List.nil_append, List.take_append_drop]
    rw [heq]
    refine hback [] (l.take 7) (l.drop 7) ?_ ?_
    · rw [List.length_take]
      omega
    · intro p hp
      exact hgood p (List.take_subset 7 l hp)

theorem perfect_week_scan_amended_witness :
    perfectScan 8 [(7, 8), (3, 8), (1, 8), (5, 8), (2, 8), (6, 8), (4, 8)] 0 = true :=
  (perfect_week_scan_amended 8
      [(7, 8), (3, 8), (1, 8), (5, 8), (2, 8), (6, 8), (4, 8)]).2
    (by decide) (by decide)

theorem streakFrom_zero_of (c : Nat → Nat) (d : Nat) (h : c d = 0) :
    streakFrom c d = 0 := by
  cases d <;> simp [streakFrom, h]

theorem streakFrom_pos_step (c : Nat → Nat) (d : Nat) (h : 0 < c (d + 1)) :
    streakFrom c (d + 1) = 1 + streakFrom c d := by
  simp [streakFrom, h]

theorem streakFrom_eq_one (c : Nat → Nat) (d : Nat) (hd : 0 < c d)
    (hz : ∀ e, d = e + 1 → c e = 0) : streakFrom c d = 1 := by
  cases d with
  | zero => simp [streakFrom, hd]
  | succ e => rw [streakFrom_pos_step c e hd, streakFrom_zero_of c e (hz e rfl)]

theorem streakFrom_counts_positive (c : Nat → Nat) :
    ∀ d j, j < streakFrom c d → 0 < c (d - j) := by
  intro d
  induction d with
  | zero =>
    intro j hj
    by_cases h : 0 < c 0
    · simp only [streakFrom, h, if_pos] at hj
      interval_cases j
      simpa using h
    · simp [streakFrom, h] at hj
  | succ e ih =>
    intro j hj
    by_cases h : 0 < c (e + 1)
    · rw [streakFrom_pos_step c e h] at hj
      cases j with
      | zero => simpa using h
      | succ j' =>
        have : e + 1 - (j' + 1) = e - j' := by omega
        rw [this]
        exact ih j' (by omega)
    · rw [streakFrom_zero_of c (e + 1) (by omega)] at hj
      omega

/-- C8: the streak shown by `update_stats` walks backward from today,
taking today's count from the live `log_count` and earlier days from
`history` with missing days as zero.  With history `{T-2: 1, T-1: 1}` and
`log_count = 1` at day `T = t + 2` the streak is 3; a zero entry at `T-1`,
or no entry at all, breaks it to 1; and every day counted by the streak
has a positive count. -/
theorem update_stats_streak_scenarios (t g : Nat) (last : Timestamp)
    (times : List Timestamp) :
    statsStreak
        ⟨1, g, fun d => if d = t + 1 then some 1 else if d = t then some 1 else none,
          last, times⟩ (t + 2) = 3 ∧
      statsStreak
          ⟨1, g, fun d => if d = t + 1 then some 0 else if d = t then some 1 else none,
            last, times⟩ (t + 2) = 1 ∧
      statsStreak ⟨1, g, fun d => if d = t then some 1 else none, last, times⟩
          (t + 2) = 1 ∧
      (∀ (s : AppState) (today j : Nat), j < statsStreak s today →
        0 < dayCount s today (today - j)) := by
  refine ⟨?_, ?_, ?_, fun s today j hj => streakFrom_counts_positive _ today j hj⟩
  · set s1 : AppState :=
      ⟨1, g, fun d => if d = t + 1 then some 1 else if d = t then some 1 else none,
        last, times⟩ with hs1
    show streakFrom (dayCount s1 (t + 2)) (t + 2) = 3
    have h2 : streakFrom (dayCount s1 (t + 2)) (t + 2)
        = 1 + streakFrom (dayCount s1 (t + 2)) (t + 1) :=
      streakFrom_pos_step _ (t + 1) (by simp [dayCount, hs1])
    have h1 : streakFrom (dayCount s1 (t + 2)) (t + 1)
        = 1 + streakFrom (dayCount s1 (t + 2)) t :=
      streakFrom_pos_step _ t
        (by simp [dayCount, hs1, show t + 1 ≠ t + 2 by omega])
    have h0 : streakFrom (dayCount s1 (t + 2)) t = 1 := by
      refine streakFrom_eq_one _ t ?_ ?_
      · simp [dayCount, hs1, show t ≠ t + 2 by omega, show t ≠ t + 1 by omega]
      · intro e he
        subst he
        simp [dayCount, hs1, show e ≠ e + 1 + 2 by omega,
          show e ≠ e + 1 + 1 by omega, show e ≠ e + 1 by omega]
    rw [h2, h1, h0]
  · set s2 : AppState :=
      ⟨1, g, fun d => if d = t + 1 then some 0 else if d = t then some 1 else none,
        last, times⟩ with hs2
    show streakFrom (dayCount s2 (t + 2)) (t + 2) = 1
    refine streakFrom_eq_one _ (t + 2) (by simp [dayCount, hs2]) ?_
    intro e he
    have he1 : e = t + 1 := by omega
    subst he1
    simp [dayCount, hs2, show t + 1 ≠ t + 2 by omega]
  · set s3 : AppState := ⟨1, g, fun d => if d = t then some 1 else none, last, times⟩
      with hs3
    show streakFrom (dayCount s3 (t + 2)) (t + 2) = 1
    refine streakFrom_eq_one _ (t + 2) (by simp [dayCount, hs3]) ?_
    intro e he
    have he1 : e = t + 1 := by omega
    subst he1
    simp [dayCount, hs3, show t + 1 ≠ t + 2 by omega, show t + 1 ≠ t by omega]

theorem update_stats_streak_scenarios_witness :
    statsStreak
        ⟨1, 8, fun d => if d = 3 + 1 then some 1 else if d = 3 then some 1 else none,
          (0, 0), []⟩ (3 + 2) = 3 ∧
      0 < dayCount
          ⟨1, 8, fun d => if d = 3 + 1 then some 1 else if d = 3 then some 1 else none,
            (0, 0), []⟩ (3 + 2) (3 + 2 - 0) :=
  ⟨(update_stats_streak_scenarios 3 8 (0, 0) []).1,
   (update_stats_streak_scenarios 3 8 (0, 0) []).2.2.2
     ⟨1, 8, fun d => if d = 3 + 1 then some 1 else if d = 3 then some 1 else none,
       (0, 0), []⟩ (3 + 2) 0 (by decide)⟩

/-- C4, counterexample: on the input `"Buy milk !!! @tomorrow #errand"`,
`quick_add_task` checks the `!!!` marker with `str.endswith` on the raw
input, which here ends in `#errand`, so no priority branch fires: the
task keeps the default priority `"Medium"` and the `!!!` stays in the
stored text, contradicting the claimed `text="Buy milk"` and
`priority="High"` (the deadline and tag are parsed as claimed). -/
theorem quick_add_counterexample :
    quickAddTask 0 "All" ("Buy milk !!! @tomorrow #errand".data) =
        some ⟨"Buy milk !!!".data, "Medium", ["errand".data], "Personal",
          some (1, 18 * 60)⟩ ∧
      ("Buy milk !!!".data ≠ "Buy milk".data ∧ "Medium" ≠ "High") := by
  refine ⟨by decide, by decide, by decide⟩

/-- C4, amended: the `!`/`!!`/`!!!` priority markers map to
Low/Medium/High only when they terminate the raw input line; `@date` and
`#tag` tokens are stripped and set the deadline (18:00 on the resolved
day) and tags.  Hence `"Buy milk !!! @tomorrow #errand"` parses to text
`"Buy milk !!!"` with default priority Medium, deadline tomorrow 18:00
and tags `["errand"]`, while the reordered `"Buy milk @tomorrow #errand
!!!"` parses to text `"Buy milk"`, priority High, deadline tomorrow
18:00, tags `["errand"]`; a single trailing `!` gives Low and `@today`
resolves to the current day. -/
theorem quick_add_amended :
    quickAddTask 0 "All" ("Buy milk !!! @tomorrow #errand".data) =
        some ⟨"Buy milk !!!".data, "Medium", ["errand".data], "Personal",
          some (1, 18 * 60)⟩ ∧
      quickAddTask 0 "All" ("Buy milk @tomorrow #errand !!!".data) =
        some ⟨"Buy milk".data, "High", ["errand".data], "Personal",
          some (1, 18 * 60)⟩ ∧
      quickAddTask 3 "Work" ("Email boss !".data) =
        some ⟨"Email boss".data, "Low", [], "Work", none⟩ ∧
      quickAddTask 3 "Work" ("Pay rent @today !!!".data) =
        some ⟨"Pay rent".data, "High", [], "Work", some (3, 18 * 60)⟩ := by
  refine ⟨by decide, by decide, by decide, by decide⟩

end BeaApa
